import Mathlib

/-!
Verification of the libbuffer repository: the Levenshtein diff engine
(`diff.hpp`) and the observable double-buffer (`buffer.h`).

The diff engine is embedded shallowly.  The C++ memoization table
`table[i][j]` becomes the function `buffer.table`; the backtracking
`while (i > 0 || j > 0)` loop becomes `buffer.backtrack`.  Both are
written with an explicit fuel argument (`tableAux`, `backtrackAux`):
the fuel is `i + j`, an upper bound on the number of loop iterations,
and fuel-irrelevance lemmas show that the fueled functions agree with
the ideal recurrences.  This keeps every definition structurally
recursive, hence executable by `decide` in the kernel.
-/

namespace buffer

/-- Translation of `enum DiffType { INSERT, DELETE, SUBSTITUTE, ALL }`
from diff.hpp. -/
inductive DiffType where
  | INSERT
  | DELETE
  | SUBSTITUTE
  | ALL
deriving DecidableEq, Repr

/-- Translation of `struct Diff` from diff.hpp: an edit operation with a
kind, a target index and the associated value. -/
structure Diff (T : Type) where
  type : DiffType
  index : Nat
  value : T
deriving DecidableEq, Repr

/-- The `INT_MAX` sentinel used by the backtracking loop of `diff` for
out-of-range predecessor cells (a 32-bit C++ `int`). -/
def INTMAX : Nat := 2 ^ 31 - 1

/-- The element comparison used when filling the table, from diff.hpp line 42:
`(compare && (compare(x_val, y_val))) || (!compare && x[i-1] == y[j-1])` —
the optional predicate when one is set, `==` otherwise. -/
def elemEq {T : Type} [DecidableEq T] (compare : Option (T → T → Bool)) (a b : T) : Bool :=
  match compare with
  | some f => f a b
  | none => decide (a = b)

/-- Fueled form of the memoization table of `diff` (diff.hpp lines 28-51).
Row 0 and column 0 are seeded with their index; an inner cell is the
diagonal predecessor when the elements compare equal, and otherwise
`min(deletion, min(insertion, substitution)) + 1` exactly as in the C++
(`deletion = table[i-1][j]`, `insertion = table[i][j-1]`,
`substitution = table[i-1][j-1]`).  The fuel only bounds the recursion
depth; `i + j` is always enough (see `tableAux_congr`). -/
def tableAux {T : Type} [DecidableEq T] [Inhabited T] (compare : Option (T → T → Bool))
    (x y : List T) : Nat → Nat → Nat → Nat
  | _, i, 0 => i
  | _, 0, j => j
  | 0, _, _ => 0
  | fuel + 1, i + 1, j + 1 =>
    if elemEq compare (x.getD i default) (y.getD j default) then
      tableAux compare x y fuel i j
    else
      min (tableAux compare x y fuel i (j + 1))
        (min (tableAux compare x y fuel (i + 1) j) (tableAux compare x y fuel i j)) + 1

/-- The memoization table of `diff`: cell `(i, j)` of the Levenshtein
recurrence. -/
def table {T : Type} [DecidableEq T] [Inhabited T] (compare : Option (T → T → Bool))
    (x y : List T) (i j : Nat) : Nat :=
  tableAux compare x y (i + j) i j

/-- The `insertion` candidate read by the backtracking loop
(diff.hpp line 63): `j > 0 ? table[i][j-1] : INT_MAX`. -/
def insertionCost {T : Type} [DecidableEq T] [Inhabited T] (compare : Option (T → T → Bool))
    (x y : List T) (i j : Nat) : Nat :=
  if 0 < j then table compare x y i (j - 1) else INTMAX

/-- The `deletion` candidate read by the backtracking loop
(diff.hpp line 64): `i > 0 ? table[i-1][j] : INT_MAX`. -/
def deletionCost {T : Type} [DecidableEq T] [Inhabited T] (compare : Option (T → T → Bool))
    (x y : List T) (i j : Nat) : Nat :=
  if 0 < i then table compare x y (i - 1) j else INTMAX

/-- The `diagonal` candidate read by the backtracking loop
(diff.hpp line 65): `(i > 0 && j > 0) ? table[i-1][j-1] : INT_MAX`. -/
def diagonalCost {T : Type} [DecidableEq T] [Inhabited T] (compare : Option (T → T → Bool))
    (x y : List T) (i j : Nat) : Nat :=
  if 0 < i ∧ 0 < j then table compare x y (i - 1) (j - 1) else INTMAX

/-- Fueled form of the backtracking loop of `diff` (diff.hpp lines 54-83):
`while (i > 0 || j > 0)` emitting INSERT/DELETE/SUBSTITUTE operations with
the source's guard priority.  Operations are collected in emission order
(the C++ `push_back` order).  Fuel `i + j` always suffices
(see `backtrackAux_congr`). -/
def backtrackAux {T : Type} [DecidableEq T] [Inhabited T] (compare : Option (T → T → Bool))
    (x y : List T) : Nat → Nat → Nat → List (Diff T)
  | _, 0, 0 => []
  | 0, _, _ => []
  | fuel + 1, i, j =>
    if insertionCost compare x y i j < diagonalCost compare x y i j ∧
        insertionCost compare x y i j < deletionCost compare x y i j then
      ⟨.INSERT, i, y.getD (j - 1) default⟩ :: backtrackAux compare x y fuel i (j - 1)
    else if deletionCost compare x y i j < diagonalCost compare x y i j ∧
        deletionCost compare x y i j < insertionCost compare x y i j then
      ⟨.DELETE, i - 1, x.getD (i - 1) default⟩ :: backtrackAux compare x y fuel (i - 1) j
    else if diagonalCost compare x y i j = table compare x y i j then
      backtrackAux compare x y fuel (i - 1) (j - 1)
    else
      ⟨.SUBSTITUTE, i - 1, y.getD (j - 1) default⟩ :: backtrackAux compare x y fuel (i - 1) (j - 1)

/-- The backtracking reconstruction started at `(i, j)`. -/
def backtrack {T : Type} [DecidableEq T] [Inhabited T] (compare : Option (T → T → Bool))
    (x y : List T) (i j : Nat) : List (Diff T) :=
  backtrackAux compare x y (i + j) i j

/-- Translation of `diff` (diff.hpp lines 21-84): build the table, then
backtrack from `(m, n)`, returning the operations in emission order. -/
def diff {T : Type} [DecidableEq T] [Inhabited T] (x y : List T)
    (compare : Option (T → T → Bool)) : List (Diff T) :=
  backtrack compare x y x.length y.length

/-! ### The specification-side recurrence, replay semantics and tie-break -/

/-- Fueled form of the edit-distance recurrence exactly as the spec words it
(spec 4.1 / claim C2): row 0 and column 0 seeded with their index; cell
`(i, j)` is the diagonal predecessor when the elements compare equal and
otherwise 1 plus the minimum of the deletion, insertion and substitution
predecessors. -/
def levenshteinAux {T : Type} [DecidableEq T] [Inhabited T] (equals : Option (T → T → Bool))
    (x y : List T) : Nat → Nat → Nat → Nat
  | _, i, 0 => i
  | _, 0, j => j
  | 0, _, _ => 0
  | fuel + 1, i + 1, j + 1 =>
    if elemEq equals (x.getD i default) (y.getD j default) then
      levenshteinAux equals x y fuel i j
    else
      1 + min (levenshteinAux equals x y fuel i (j + 1))
          (min (levenshteinAux equals x y fuel (i + 1) j) (levenshteinAux equals x y fuel i j))

/-- The classic Levenshtein edit distance between `x` and `y` under the
given equality predicate: the value `table[m][n]` of the spec recurrence. -/
def levenshtein {T : Type} [DecidableEq T] [Inhabited T] (equals : Option (T → T → Bool))
    (x y : List T) : Nat :=
  levenshteinAux equals x y (x.length + y.length) x.length y.length

/-- Modelled from the spec (§3 and claim C1): applying one edit operation to a
sequence — an `Insert` inserts its value at its index, a `Delete` removes the
element at its index, a `Substitute` replaces the element at its index. -/
def applyOp {T : Type} [Inhabited T] (l : List T) (d : Diff T) : List T :=
  match d.type with
  | .INSERT => List.insertIdx d.index d.value l
  | .DELETE => l.eraseIdx d.index
  | .SUBSTITUTE => l.set d.index d.value
  | .ALL => l

/-- Modelled from the spec (claim C1): replay the emitted operations against a
sequence in reverse-of-emission order. -/
def applyEditsRev {T : Type} [Inhabited T] (ops : List (Diff T)) (l : List T) : List T :=
  ops.reverse.foldl applyOp l

/-- Replay the emitted operations against a sequence in emission order. -/
def applyEdits {T : Type} [Inhabited T] (ops : List (Diff T)) (l : List T) : List T :=
  ops.foldl applyOp l

/-- The four possible moves of one backtracking step. -/
inductive BacktrackStep where
  | stepInsert
  | stepDelete
  | stepMatch
  | stepSubstitute
deriving DecidableEq, Repr

/-- Modelled from the spec (§4.1, claim C5): the fixed tie-break priority —
insertion wins if strictly less than both alternatives; otherwise deletion
wins if strictly less than both; otherwise, if the diagonal cost equals the
current cell's cost, a silent match; otherwise a substitution. -/
def tieBreakSpec (insertion deletion diagonal cell : Nat) : BacktrackStep :=
  if insertion < deletion ∧ insertion < diagonal then .stepInsert
  else if deletion < insertion ∧ deletion < diagonal then .stepDelete
  else if diagonal = cell then .stepMatch
  else .stepSubstitute

/-- Modelled from the spec (§4.1, claims C5/C6): the reconstruction step the
spec describes, at state `(i, j)` — choose a move by the tie-break priority on
the three predecessor costs, emit the operation the spec prescribes for that
move, and continue from the decremented state. -/
def specStep {T : Type} [DecidableEq T] [Inhabited T] (c : Option (T → T → Bool))
    (x y : List T) (i j : Nat) : List (Diff T) :=
  match tieBreakSpec (insertionCost c x y i j) (deletionCost c x y i j)
      (diagonalCost c x y i j) (table c x y i j) with
  | .stepInsert => ⟨.INSERT, i, y.getD (j - 1) default⟩ :: backtrack c x y i (j - 1)
  | .stepDelete => ⟨.DELETE, i - 1, x.getD (i - 1) default⟩ :: backtrack c x y (i - 1) j
  | .stepMatch => backtrack c x y (i - 1) (j - 1)
  | .stepSubstitute =>
    ⟨.SUBSTITUTE, i - 1, y.getD (j - 1) default⟩ :: backtrack c x y (i - 1) (j - 1)

/-! ### The observable buffer (buffer.h, current variant)

Subscribers are identified by pointer identity in the C++ source; here a
subscriber is its identity, a natural number.  The callbacks a recompute
issues are recorded as an event list in issue order. -/

abbrev SubscriberId := Nat

/-- The `Subscriber` interface of buffer.h: the three callbacks a buffer
invokes, recorded together with their arguments. -/
inductive BufferCallback (T : Type) where
  | onBufferWillChange
  | onBufferChange (type : DiffType) (index : Nat) (value : T)
  | onBufferDidChange
deriving DecidableEq, Repr

/-- Translation of `Buffer::registerSubscriber` (buffer.h lines 187-198) at
the level of the subscriber list: no-op when the subscriber is already
present (by identity), append otherwise. -/
def registerSubscriber (subs : List SubscriberId) (subscriber : SubscriberId) :
    List SubscriberId :=
  if subscriber ∈ subs then subs else subs ++ [subscriber]

/-- The notifications issued by one run of `computeChanges`
(buffer.h lines 264-281): a will-change round over the subscribers when the
edit list is non-empty (`is_changed = diffs.size()`), then one per-operation
round over the subscribers for each diff in emission order, then a did-change
round when the edit list was non-empty. -/
def notifyEvents {T : Type} (subs : List SubscriberId) (diffs : List (Diff T)) :
    List (SubscriberId × BufferCallback T) :=
  (if diffs.length ≠ 0 then subs.map (fun s => (s, BufferCallback.onBufferWillChange)) else [])
    ++ diffs.flatMap
      (fun d => subs.map (fun s => (s, BufferCallback.onBufferChange d.type d.index d.value)))
    ++ (if diffs.length ≠ 0 then subs.map (fun s => (s, BufferCallback.onBufferDidChange)) else [])

/-- The pre-diff transform of `computeChanges` (buffer.h lines 259-261):
`sort_fnc ? sort_fnc(back) : back`. -/
def applySort {T : Type} (sortf : Option (List T → List T)) (l : List T) : List T :=
  match sortf with
  | some f => f l
  | none => l

/-- The state of a `Buffer<T>` (buffer.h lines 145-162).  The two snapshots,
the subscriber registry, the two configured delegate functions and the three
flags are the C++ data members.  `in_flight_` is the modelling of the worker
thread executing `computeChanges`: when a recompute is running it holds the
pair (front buffer, back buffer) the running body read when it started. -/
structure Buffer (T : Type) where
  front_buffer_ : List T
  back_buffer_ : List T
  subscribers_ : List SubscriberId
  compare_fnc_ : Option (T → T → Bool)
  sort_fnc : Option (List T → List T)
  is_asynchronous_ : Bool
  is_computing_changes_ : Bool
  should_recompute_changes_ : Bool
  in_flight_ : Option (List T × List T)

/-- One execution of the lock-protected body of `Buffer::computeChanges`
(buffer.h lines 254-288), by the worker whose input snapshots are recorded in
`in_flight_`: apply the sort transform to the pending snapshot, diff the
published snapshot against the candidate — note the source passes no
comparison function to `diff`, so `compare_fnc_` is unused — publish the
candidate, emit the notifications, and finally either go idle or, when
`should_recompute_changes_` was set meanwhile, immediately start the
coalesced follow-up run on the current back buffer (the tail call at
line 287). -/
def computeChangesBody {T : Type} [DecidableEq T] [Inhabited T] (b : Buffer T) :
    Buffer T × List (SubscriberId × BufferCallback T) :=
  match b.in_flight_ with
  | none => (b, [])
  | some (front0, back0) =>
    let new_collection := applySort b.sort_fnc back0
    let diffs := diff front0 new_collection none
    let events := notifyEvents b.subscribers_ diffs
    (if b.should_recompute_changes_ then
      ⟨new_collection, b.back_buffer_, b.subscribers_, b.compare_fnc_, b.sort_fnc,
        b.is_asynchronous_, true, false, some (new_collection, b.back_buffer_)⟩
    else
      ⟨new_collection, b.back_buffer_, b.subscribers_, b.compare_fnc_, b.sort_fnc,
        b.is_asynchronous_, false, false, none⟩, events)

/-- Translation of `Buffer::setCollection` followed by `Buffer::refresh`
(buffer.h lines 212-235): replace the back buffer unconditionally; then, in
synchronous mode run `computeChanges` inline; in asynchronous mode, when a
recompute is already running only set `should_recompute_changes_`, and
otherwise start a worker (whose body reads the snapshots as of now). -/
def setCollection {T : Type} [DecidableEq T] [Inhabited T] (b : Buffer T)
    (collection : List T) : Buffer T × List (SubscriberId × BufferCallback T) :=
  let b1 : Buffer T := ⟨b.front_buffer_, collection, b.subscribers_, b.compare_fnc_,
    b.sort_fnc, b.is_asynchronous_, b.is_computing_changes_, b.should_recompute_changes_,
    b.in_flight_⟩
  if !b1.is_asynchronous_ then
    computeChangesBody ⟨b1.front_buffer_, b1.back_buffer_, b1.subscribers_, b1.compare_fnc_,
      b1.sort_fnc, b1.is_asynchronous_, true, b1.should_recompute_changes_,
      some (b1.front_buffer_, b1.back_buffer_)⟩
  else if b1.is_computing_changes_ then
    (⟨b1.front_buffer_, b1.back_buffer_, b1.subscribers_, b1.compare_fnc_, b1.sort_fnc,
      b1.is_asynchronous_, b1.is_computing_changes_, true, b1.in_flight_⟩, [])
  else
    (⟨b1.front_buffer_, b1.back_buffer_, b1.subscribers_, b1.compare_fnc_, b1.sort_fnc,
      b1.is_asynchronous_, true, b1.should_recompute_changes_,
      some (b1.front_buffer_, b1.back_buffer_)⟩, [])

/-- A sequence of `setCollection` calls from the owner thread, with the
events each call produced, concatenated in order. -/
def submitAll {T : Type} [DecidableEq T] [Inhabited T] (b : Buffer T) :
    List (List T) → Buffer T × List (SubscriberId × BufferCallback T)
  | [] => (b, [])
  | v :: vs =>
    ((submitAll (setCollection b v).1 vs).1,
      (setCollection b v).2 ++ (submitAll (setCollection b v).1 vs).2)

/-- Concrete buffer used to exhibit the unused comparison function: a
predicate deeming everything equal is configured, and a recompute is in
flight on snapshots `[0]` and `[1]`. -/
def bufferC4 : Buffer Nat :=
  ⟨[0], [1], [7], some fun _ _ => true, none, true, true, false, some ([0], [1])⟩

/-- Concrete buffer with a recompute in flight, used to instantiate the
coalescing theorem. -/
def bufferC3w : Buffer Nat :=
  ⟨[0], [1], [9], none, none, true, true, false, some ([0], [1])⟩

/-- Concrete buffer with a recompute in flight, used to instantiate the
notification-order theorem. -/
def bufferC8w : Buffer Nat :=
  ⟨[5], [5, 6], [3], none, none, true, true, false, some ([5], [5, 6])⟩

/-! ### Fuel irrelevance and unfolding lemmas for the table and the loop -/

lemma tableAux_succ_succ {T : Type} [DecidableEq T] [Inhabited T] (c : Option (T → T → Bool))
    (x y : List T) (f i j : Nat) :
    tableAux c x y (f + 1) (i + 1) (j + 1) =
      if elemEq c (x.getD i default) (y.getD j default) then tableAux c x y f i j
      else
        min (tableAux c x y f i (j + 1))
          (min (tableAux c x y f (i + 1) j) (tableAux c x y f i j)) + 1 := rfl

lemma tableAux_congr {T : Type} [DecidableEq T] [Inhabited T] (c : Option (T → T → Bool))
    (x y : List T) : ∀ f g i j : Nat, i + j ≤ f → i + j ≤ g →
    tableAux c x y f i j = tableAux c x y g i j := by
  intro f
  induction f with
  | zero =>
    intro g i j hf hg
    have hi : i = 0 := by omega
    have hj : j = 0 := by omega
    subst hi hj
    simp [tableAux]
  | succ f ih =>
    intro g i j hf hg
    cases j with
    | zero => simp [tableAux]
    | succ j =>
      cases i with
      | zero => simp [tableAux]
      | succ i =>
        cases g with
        | zero => omega
        | succ g =>
          rw [tableAux_succ_succ, tableAux_succ_succ]
          by_cases he : elemEq c (x.getD i default) (y.getD j default)
          · rw [if_pos he, if_pos he, ih g i j (by omega) (by omega)]
          · rw [if_neg he, if_neg he, ih g i (j + 1) (by omega) (by omega),
              ih g (i + 1) j (by omega) (by omega), ih g i j (by omega) (by omega)]

lemma table_j0 {T : Type} [DecidableEq T] [Inhabited T] (c : Option (T → T → Bool))
    (x y : List T) (i : Nat) : table c x y i 0 = i := by
  simp [table, tableAux]

lemma table_i0 {T : Type} [DecidableEq T] [Inhabited T] (c : Option (T → T → Bool))
    (x y : List T) (j : Nat) : table c x y 0 j = j := by
  cases j <;> simp [table, tableAux]

lemma table_succ {T : Type} [DecidableEq T] [Inhabited T] (c : Option (T → T → Bool))
    (x y : List T) (i j : Nat) :
    table c x y (i + 1) (j + 1) =
      if elemEq c (x.getD i default) (y.getD j default) then table c x y i j
      else
        min (table c x y i (j + 1)) (min (table c x y (i + 1) j) (table c x y i j)) + 1 := by
  simp only [table]
  rw [show i + 1 + (j + 1) = (i + j + 1) + 1 from by omega, tableAux_succ_succ,
    tableAux_congr c x y (i + j + 1) (i + (j + 1)) i (j + 1) (by omega) (by omega),
    tableAux_congr c x y (i + j + 1) (i + 1 + j) (i + 1) j (by omega) (by omega),
    tableAux_congr c x y (i + j + 1) (i + j) i j (by omega) (by omega)]

lemma insertion_lt_diagonal_pos {T : Type} [DecidableEq T] [Inhabited T]
    (c : Option (T → T → Bool)) (x y : List T) (i j : Nat)
    (h : insertionCost c x y i j < diagonalCost c x y i j) : 0 < j := by
  by_contra hj
  have hj0 : j = 0 := by omega
  subst hj0
  simp [insertionCost, diagonalCost] at h

lemma deletion_lt_diagonal_pos {T : Type} [DecidableEq T] [Inhabited T]
    (c : Option (T → T → Bool)) (x y : List T) (i j : Nat)
    (h : deletionCost c x y i j < diagonalCost c x y i j) : 0 < i := by
  by_contra hi
  have hi0 : i = 0 := by omega
  subst hi0
  simp [deletionCost, diagonalCost] at h

/-- One step of the fueled backtracking loop, in terms of the cost guards. -/
lemma backtrackAux_succ {T : Type} [DecidableEq T] [Inhabited T] (c : Option (T → T → Bool))
    (x y : List T) (f i j : Nat) (h : ¬(i = 0 ∧ j = 0)) :
    backtrackAux c x y (f + 1) i j =
      if insertionCost c x y i j < diagonalCost c x y i j ∧
          insertionCost c x y i j < deletionCost c x y i j then
        ⟨.INSERT, i, y.getD (j - 1) default⟩ :: backtrackAux c x y f i (j - 1)
      else if deletionCost c x y i j < diagonalCost c x y i j ∧
          deletionCost c x y i j < insertionCost c x y i j then
        ⟨.DELETE, i - 1, x.getD (i - 1) default⟩ :: backtrackAux c x y f (i - 1) j
      else if diagonalCost c x y i j = table c x y i j then
        backtrackAux c x y f (i - 1) (j - 1)
      else
        ⟨.SUBSTITUTE, i - 1, y.getD (j - 1) default⟩ ::
          backtrackAux c x y f (i - 1) (j - 1) := by
  cases j with
  | zero =>
    cases i with
    | zero => exact absurd ⟨rfl, rfl⟩ h
    | succ i => rfl
  | succ j =>
    cases i with
    | zero => rfl
    | succ i => rfl

lemma backtrackAux_congr {T : Type} [DecidableEq T] [Inhabited T] (c : Option (T → T → Bool))
    (x y : List T) : ∀ f g i j : Nat, i + j ≤ f → i + j ≤ g →
    backtrackAux c x y f i j = backtrackAux c x y g i j := by
  intro f
  induction f with
  | zero =>
    intro g i j hf hg
    have hi : i = 0 := by omega
    have hj : j = 0 := by omega
    subst hi hj
    simp [backtrackAux]
  | succ f ih =>
    intro g i j hf hg
    by_cases h0 : i = 0 ∧ j = 0
    · obtain ⟨hi, hj⟩ := h0
      subst hi hj
      simp [backtrackAux]
    · cases g with
      | zero => omega
      | succ g =>
        rw [backtrackAux_succ c x y f i j h0, backtrackAux_succ c x y g i j h0]
        split_ifs with h1 h2 h3
        · have hj := insertion_lt_diagonal_pos c x y i j h1.1
          rw [ih g i (j - 1) (by omega) (by omega)]
        · have hi := deletion_lt_diagonal_pos c x y i j h2.1
          rw [ih g (i - 1) j (by omega) (by omega)]
        · exact ih g (i - 1) (j - 1) (by omega) (by omega)
        · rw [ih g (i - 1) (j - 1) (by omega) (by omega)]

lemma backtrack_zero {T : Type} [DecidableEq T] [Inhabited T] (c : Option (T → T → Bool))
    (x y : List T) : backtrack c x y 0 0 = [] := rfl

/-- One unfolding of the backtracking loop (diff.hpp lines 57-82), for any
state `(i, j)` with `i > 0 || j > 0`. -/
lemma backtrack_eq {T : Type} [DecidableEq T] [Inhabited T] (c : Option (T → T → Bool))
    (x y : List T) (i j : Nat) (h : ¬(i = 0 ∧ j = 0)) :
    backtrack c x y i j =
      if insertionCost c x y i j < diagonalCost c x y i j ∧
          insertionCost c x y i j < deletionCost c x y i j then
        ⟨.INSERT, i, y.getD (j - 1) default⟩ :: backtrack c x y i (j - 1)
      else if deletionCost c x y i j < diagonalCost c x y i j ∧
          deletionCost c x y i j < insertionCost c x y i j then
        ⟨.DELETE, i - 1, x.getD (i - 1) default⟩ :: backtrack c x y (i - 1) j
      else if diagonalCost c x y i j = table c x y i j then
        backtrack c x y (i - 1) (j - 1)
      else
        ⟨.SUBSTITUTE, i - 1, y.getD (j - 1) default⟩ :: backtrack c x y (i - 1) (j - 1) := by
  show backtrackAux c x y (i + j) i j = _
  rw [show i + j = (i + j - 1) + 1 from by omega, backtrackAux_succ c x y (i + j - 1) i j h]
  split_ifs with h1 h2 h3
  · have hj := insertion_lt_diagonal_pos c x y i j h1.1
    rw [backtrackAux_congr c x y (i + j - 1) (i + (j - 1)) i (j - 1) (by omega) (by omega)]
    rfl
  · have hi := deletion_lt_diagonal_pos c x y i j h2.1
    rw [backtrackAux_congr c x y (i + j - 1) (i - 1 + j) (i - 1) j (by omega) (by omega)]
    rfl
  · rw [backtrackAux_congr c x y (i + j - 1) (i - 1 + (j - 1)) (i - 1) (j - 1)
      (by omega) (by omega)]
    rfl
  · rw [backtrackAux_congr c x y (i + j - 1) (i - 1 + (j - 1)) (i - 1) (j - 1)
      (by omega) (by omega)]
    rfl

/-! ### Arithmetic properties of the cost table -/

lemma table_le_add {T : Type} [DecidableEq T] [Inhabited T] (c : Option (T → T → Bool))
    (x y : List T) : ∀ n i j : Nat, i + j ≤ n → table c x y i j ≤ i + j := by
  intro n
  induction n with
  | zero =>
    intro i j h
    have hi : i = 0 := by omega
    have hj : j = 0 := by omega
    subst hi hj
    rw [table_j0]
  | succ n ih =>
    intro i j h
    cases j with
    | zero => rw [table_j0]; omega
    | succ j =>
      cases i with
      | zero => rw [table_i0]; omega
      | succ i =>
        rw [table_succ]
        have h3 := ih i j (by omega)
        split_ifs with he
        · omega
        · have h2 := ih (i + 1) j (by omega)
          have h1 := ih i (j + 1) (by omega)
          omega

lemma table_le {T : Type} [DecidableEq T] [Inhabited T] (c : Option (T → T → Bool))
    (x y : List T) (i j : Nat) : table c x y i j ≤ i + j :=
  table_le_add c x y (i + j) i j le_rfl

/-- The cost table is 1-Lipschitz in each argument: moving one row or one
column changes the cost by at most one. -/
lemma table_adj {T : Type} [DecidableEq T] [Inhabited T] (c : Option (T → T → Bool))
    (x y : List T) : ∀ n i j : Nat, i + j ≤ n →
    (table c x y (i + 1) j ≤ table c x y i j + 1) ∧
    (table c x y i j ≤ table c x y (i + 1) j + 1) ∧
    (table c x y i (j + 1) ≤ table c x y i j + 1) ∧
    (table c x y i j ≤ table c x y i (j + 1) + 1) := by
  intro n
  induction n with
  | zero =>
    intro i j h
    have hi : i = 0 := by omega
    have hj : j = 0 := by omega
    subst hi hj
    refine ⟨?_, ?_, ?_, ?_⟩ <;> simp [table_j0, table_i0]
  | succ n ih =>
    intro i j h
    refine ⟨?_, ?_, ?_, ?_⟩
    · cases j with
      | zero => rw [table_j0, table_j0]
      | succ j =>
        rw [table_succ]
        have hD := (ih i j (by omega)).2.2.2
        split_ifs with he
        · exact hD
        · omega
    · cases j with
      | zero => rw [table_j0, table_j0]; omega
      | succ j =>
        rw [table_succ]
        have hC := (ih i j (by omega)).2.2.1
        have hB := (ih i j (by omega)).2.1
        split_ifs with he
        · omega
        · omega
    · cases i with
      | zero => rw [table_i0, table_i0]
      | succ i =>
        rw [table_succ]
        have hB := (ih i j (by omega)).2.1
        split_ifs with he
        · omega
        · omega
    · cases i with
      | zero => rw [table_i0, table_i0]; omega
      | succ i =>
        rw [table_succ]
        have hA := (ih i j (by omega)).1
        have hD := (ih i j (by omega)).2.2.2
        split_ifs with he
        · omega
        · omega

lemma table_B {T : Type} [DecidableEq T] [Inhabited T] (c : Option (T → T → Bool))
    (x y : List T) (i j : Nat) : table c x y i j ≤ table c x y (i + 1) j + 1 :=
  (table_adj c x y (i + j) i j le_rfl).2.1

lemma table_D {T : Type} [DecidableEq T] [Inhabited T] (c : Option (T → T → Bool))
    (x y : List T) (i j : Nat) : table c x y i j ≤ table c x y i (j + 1) + 1 :=
  (table_adj c x y (i + j) i j le_rfl).2.2.2

/-- The backtracking loop started at `(i, j)` emits exactly `table i j`
operations (as long as the starting point is below the `INT_MAX`
sentinel, which the table values never reach). -/
lemma backtrack_length {T : Type} [DecidableEq T] [Inhabited T] (c : Option (T → T → Bool))
    (x y : List T) : ∀ n i j : Nat, i + j ≤ n → i + j < INTMAX →
    (backtrack c x y i j).length = table c x y i j := by
  intro n
  induction n with
  | zero =>
    intro i j hn hmax
    have hi : i = 0 := by omega
    have hj : j = 0 := by omega
    subst hi hj
    rw [backtrack_zero, table_j0]
    rfl
  | succ n ih =>
    intro i j hn hmax
    rcases i with _ | i <;> rcases j with _ | j
    · rw [backtrack_zero, table_j0]
      rfl
    · rw [backtrack_eq c x y 0 (j + 1) (by omega)]
      have hIns : insertionCost c x y 0 (j + 1) = table c x y 0 j := by
        simp [insertionCost]
      have hDel : deletionCost c x y 0 (j + 1) = INTMAX := by
        simp [deletionCost]
      have hDiag : diagonalCost c x y 0 (j + 1) = INTMAX := by
        simp [diagonalCost]
      rw [hIns, hDel, hDiag]
      have ht : table c x y 0 j = j := table_i0 c x y j
      have ht1 : table c x y 0 (j + 1) = j + 1 := table_i0 c x y (j + 1)
      split_ifs with h1 h2 h3
      · have hlen := ih 0 j (by omega) (by omega)
        simp only [Nat.add_sub_cancel, List.length_cons, hlen]
        omega
      · exact absurd h2.1 (lt_irrefl INTMAX)
      · omega
      · omega
    · rw [backtrack_eq c x y (i + 1) 0 (by omega)]
      have hIns : insertionCost c x y (i + 1) 0 = INTMAX := by
        simp [insertionCost]
      have hDel : deletionCost c x y (i + 1) 0 = table c x y i 0 := by
        simp [deletionCost]
      have hDiag : diagonalCost c x y (i + 1) 0 = INTMAX := by
        simp [diagonalCost]
      rw [hIns, hDel, hDiag]
      have ht : table c x y i 0 = i := table_j0 c x y i
      have ht1 : table c x y (i + 1) 0 = i + 1 := table_j0 c x y (i + 1)
      split_ifs with h1 h2 h3
      · exact absurd h1.1 (lt_irrefl INTMAX)
      · have hlen := ih i 0 (by omega) (by omega)
        simp only [Nat.add_sub_cancel, List.length_cons, hlen]
        omega
      · omega
      · omega
    · rw [backtrack_eq c x y (i + 1) (j + 1) (by omega)]
      have hIns : insertionCost c x y (i + 1) (j + 1) = table c x y (i + 1) j := by
        simp [insertionCost]
      have hDel : deletionCost c x y (i + 1) (j + 1) = table c x y i (j + 1) := by
        simp [deletionCost]
      have hDiag : diagonalCost c x y (i + 1) (j + 1) = table c x y i j := by
        simp [diagonalCost]
      rw [hIns, hDel, hDiag]
      simp only [Nat.add_sub_cancel]
      have hB := table_B c x y i j
      have hD := table_D c x y i j
      split_ifs with h1 h2 h3
      · have hlen := ih (i + 1) j (by omega) (by omega)
        simp only [List.length_cons, hlen]
        rw [table_succ]
        split_ifs with he
        · omega
        · omega
      · have hlen := ih i (j + 1) (by omega) (by omega)
        simp only [List.length_cons, hlen]
        rw [table_succ]
        split_ifs with he
        · omega
        · omega
      · have hlen := ih i j (by omega) (by omega)
        rw [hlen, h3]
      · have hlen := ih i j (by omega) (by omega)
        simp only [List.length_cons, hlen]
        rw [table_succ] at h3 ⊢
        split_ifs with he
        · rw [if_pos he] at h3
          exact absurd rfl h3
        · rw [if_neg he] at h3
          omega



lemma levenshteinAux_eq_tableAux {T : Type} [DecidableEq T] [Inhabited T]
    (e : Option (T → T → Bool)) (x y : List T) :
    ∀ f i j : Nat, levenshteinAux e x y f i j = tableAux e x y f i j := by
  intro f
  induction f with
  | zero =>
    intro i j
    cases i <;> cases j <;> rfl
  | succ f ih =>
    intro i j
    cases i with
    | zero => cases j <;> rfl
    | succ i =>
      cases j with
      | zero => rfl
      | succ j =>
        rw [tableAux_succ_succ]
        show (if elemEq e (x.getD i default) (y.getD j default) then
            levenshteinAux e x y f i j
          else
            1 + min (levenshteinAux e x y f i (j + 1))
              (min (levenshteinAux e x y f (i + 1) j) (levenshteinAux e x y f i j))) = _
        by_cases he : elemEq e (x.getD i default) (y.getD j default)
        · rw [if_pos he, if_pos he, ih]
        · rw [if_neg he, if_neg he, ih, ih, ih]
          omega

lemma levenshtein_eq_table {T : Type} [DecidableEq T] [Inhabited T]
    (e : Option (T → T → Bool)) (x y : List T) :
    levenshtein e x y = table e x y x.length y.length :=
  levenshteinAux_eq_tableAux e x y (x.length + y.length) x.length y.length


/-! ### Further structural lemmas about the backtracking loop -/

lemma table_self_zero {T : Type} [DecidableEq T] [Inhabited T] (x : List T) :
    ∀ i : Nat, table none x x i i = 0 := by
  intro i
  induction i with
  | zero => exact table_j0 none x x 0
  | succ i ih =>
    rw [table_succ, if_pos (by simp [elemEq])]
    exact ih

lemma backtrack_self_nil {T : Type} [DecidableEq T] [Inhabited T] (x : List T) :
    ∀ i : Nat, backtrack none x x i i = [] := by
  intro i
  induction i with
  | zero => exact backtrack_zero none x x
  | succ i ih =>
    have hDiag : diagonalCost none x x (i + 1) (i + 1) = 0 := by
      rw [diagonalCost, if_pos ⟨Nat.succ_pos i, Nat.succ_pos i⟩]
      simp only [Nat.add_sub_cancel]
      exact table_self_zero x i
    rw [backtrack_eq none x x (i + 1) (i + 1) (by omega)]
    split_ifs with h1 h2 h3
    · rw [hDiag] at h1
      exact absurd h1.1 (Nat.not_lt_zero _)
    · rw [hDiag] at h2
      exact absurd h2.1 (Nat.not_lt_zero _)
    · simp only [Nat.add_sub_cancel]
      exact ih
    · exact absurd (hDiag.trans (table_self_zero x (i + 1)).symm) h3

/-- Every emitted operation carries an index at most the current row, and the
emitted list has weakly decreasing indices (end of the sequences first). -/
lemma backtrack_chain {T : Type} [DecidableEq T] [Inhabited T] (c : Option (T → T → Bool))
    (x y : List T) : ∀ n i j : Nat, i + j ≤ n →
    (∀ d ∈ backtrack c x y i j, d.index ≤ i) ∧
    List.Chain' (fun a b : Diff T => b.index ≤ a.index) (backtrack c x y i j) := by
  intro n
  induction n with
  | zero =>
    intro i j h
    have hi : i = 0 := by omega
    have hj : j = 0 := by omega
    subst hi hj
    simp [backtrack_zero]
  | succ n ih =>
    intro i j h
    by_cases h0 : i = 0 ∧ j = 0
    · obtain ⟨hi, hj⟩ := h0
      subst hi hj
      simp [backtrack_zero]
    · rw [backtrack_eq c x y i j h0]
      split_ifs with h1 h2 h3
      · have hj := insertion_lt_diagonal_pos c x y i j h1.1
        have IH := ih i (j - 1) (by omega)
        constructor
        · intro d hd
          rcases List.mem_cons.mp hd with hd | hd
          · rw [hd]
          · exact IH.1 d hd
        · refine List.chain'_cons'.mpr ⟨?_, IH.2⟩
          intro b hb
          have hble : backtrack c x y i (j - 1) = b :: _ := List.eq_cons_of_mem_head? hb
          exact IH.1 b (hble ▸ List.mem_cons_self b _)
      · have hi := deletion_lt_diagonal_pos c x y i j h2.1
        have IH := ih (i - 1) j (by omega)
        constructor
        · intro d hd
          rcases List.mem_cons.mp hd with hd | hd
          · rw [hd]
            show i - 1 ≤ i
            omega
          · have := IH.1 d hd
            omega
        · refine List.chain'_cons'.mpr ⟨?_, IH.2⟩
          intro b hb
          have hble : backtrack c x y (i - 1) j = b :: _ := List.eq_cons_of_mem_head? hb
          exact IH.1 b (hble ▸ List.mem_cons_self b _)
      · have IH := ih (i - 1) (j - 1) (by omega)
        constructor
        · intro d hd
          have := IH.1 d hd
          omega
        · exact IH.2
      · have IH := ih (i - 1) (j - 1) (by omega)
        constructor
        · intro d hd
          rcases List.mem_cons.mp hd with hd | hd
          · rw [hd]
            show i - 1 ≤ i
            omega
          · have := IH.1 d hd
            omega
        · refine List.chain'_cons'.mpr ⟨?_, IH.2⟩
          intro b hb
          have hble : backtrack c x y (i - 1) (j - 1) = b :: _ := List.eq_cons_of_mem_head? hb
          exact IH.1 b (hble ▸ List.mem_cons_self b _)

/-- The loop always terminates within `i + j` iterations, so the emitted list
has at most `i + j` operations. -/
lemma backtrack_length_le {T : Type} [DecidableEq T] [Inhabited T] (c : Option (T → T → Bool))
    (x y : List T) : ∀ n i j : Nat, i + j ≤ n → (backtrack c x y i j).length ≤ i + j := by
  intro n
  induction n with
  | zero =>
    intro i j h
    have hi : i = 0 := by omega
    have hj : j = 0 := by omega
    subst hi hj
    simp [backtrack_zero]
  | succ n ih =>
    intro i j h
    by_cases h0 : i = 0 ∧ j = 0
    · obtain ⟨hi, hj⟩ := h0
      subst hi hj
      simp [backtrack_zero]
    · rw [backtrack_eq c x y i j h0]
      split_ifs with h1 h2 h3
      · have hj := insertion_lt_diagonal_pos c x y i j h1.1
        have IH := ih i (j - 1) (by omega)
        simp only [List.length_cons]
        omega
      · have hi := deletion_lt_diagonal_pos c x y i j h2.1
        have IH := ih (i - 1) j (by omega)
        simp only [List.length_cons]
        omega
      · have IH := ih (i - 1) (j - 1) (by omega)
        omega
      · have IH := ih (i - 1) (j - 1) (by omega)
        simp only [List.length_cons]
        omega



/-! ### Behaviour of submissions that arrive while a recompute is in flight -/

lemma submitAll_during_flight {T : Type} [DecidableEq T] [Inhabited T] :
    ∀ (vs : List (List T)) (s : Buffer T),
    s.is_asynchronous_ = true → s.is_computing_changes_ = true →
    (submitAll s vs).1.front_buffer_ = s.front_buffer_ ∧
    (submitAll s vs).1.back_buffer_ = vs.getLastD s.back_buffer_ ∧
    (submitAll s vs).1.subscribers_ = s.subscribers_ ∧
    (submitAll s vs).1.sort_fnc = s.sort_fnc ∧
    (submitAll s vs).1.is_asynchronous_ = true ∧
    (submitAll s vs).1.is_computing_changes_ = true ∧
    (submitAll s vs).1.should_recompute_changes_ =
      (s.should_recompute_changes_ || !vs.isEmpty) ∧
    (submitAll s vs).1.in_flight_ = s.in_flight_ ∧
    (submitAll s vs).2 = [] := by
  intro vs
  induction vs with
  | nil =>
    intro s ha hc
    exact ⟨rfl, rfl, rfl, rfl, ha, hc, by simp [submitAll], rfl, rfl⟩
  | cons v vs ih =>
    intro s ha hc
    have hset : setCollection s v =
        (⟨s.front_buffer_, v, s.subscribers_, s.compare_fnc_, s.sort_fnc,
          s.is_asynchronous_, s.is_computing_changes_, true, s.in_flight_⟩, []) := by
      simp [setCollection, ha, hc]
    simp only [submitAll, hset]
    obtain ⟨h1, h2, h3, h4, h5, h6, h7, h8, h9⟩ :=
      ih ⟨s.front_buffer_, v, s.subscribers_, s.compare_fnc_, s.sort_fnc,
        s.is_asynchronous_, s.is_computing_changes_, true, s.in_flight_⟩ ha hc
    refine ⟨h1, ?_, h3, h4, h5, h6, ?_, h8, by simp [h9]⟩
    · rw [h2, List.getLastD_cons]
    · rw [h7]
      simp

lemma count_map_pair (l : List SubscriberId) (p : SubscriberId) (e : BufferCallback Nat) :
    ((l.map fun s => (s, e)).count (p, e)) = l.count p := by
  induction l with
  | nil => rfl
  | cons a l ih =>
    simp only [List.map_cons, List.count_cons, ih, beq_iff_eq, Prod.mk.injEq, and_true]

/-! ### Claim theorems -/

/-- Claim C1 (code bug): the spec requires that replaying the operations of
`diff(x, y)` against `x` yields `y`, but on `x = [1,0,1]`, `y = [0,1,0]`
the engine emits only the two substitutions `Substitute(1,1)` and
`Substitute(0,0)` — the `diagonal == table[i][j]` test silently matched the
unequal last elements — and applying them (in reverse-of-emission order, or
in any order: substitutions do not shift indices) yields `[0,1,1]`, not `y`,
even though the reported edit count 2 is the true distance. -/
theorem diff_roundTrip_violation :
    diff ([1, 0, 1] : List Nat) [0, 1, 0] none =
      [⟨.SUBSTITUTE, 1, 1⟩, ⟨.SUBSTITUTE, 0, 0⟩] ∧
    applyEditsRev (diff ([1, 0, 1] : List Nat) [0, 1, 0] none) [1, 0, 1] = [0, 1, 1] ∧
    applyEdits (diff ([1, 0, 1] : List Nat) [0, 1, 0] none) [1, 0, 1] = [0, 1, 1] ∧
    ([0, 1, 1] : List Nat) ≠ [0, 1, 0] ∧
    levenshtein none ([1, 0, 1] : List Nat) [0, 1, 0] = 2 := by
  refine ⟨by decide, by decide, by decide, by decide, by decide⟩

/-- Claim C2: for every pair of sequences whose combined length is
representable in the `int`-valued cost table, the number of operations
returned by `diff` equals the classic Levenshtein edit distance — the value
`table[m][n]` of the spec recurrence — under the configured equality
predicate. -/
theorem diff_length_eq_levenshtein {T : Type} [DecidableEq T] [Inhabited T]
    (x y : List T) (equals : Option (T → T → Bool))
    (h : x.length + y.length < INTMAX) :
    (diff x y equals).length = levenshtein equals x y := by
  rw [levenshtein_eq_table]
  exact backtrack_length equals x y (x.length + y.length) x.length y.length le_rfl h

/-- Witness for C2, on the spec's own concrete scenario
`[1,5,3,2]` against `[1,3,2,6,6]` (edit distance 3). -/
theorem diff_length_eq_levenshtein_witness :
    ([1, 5, 3, 2] : List Nat).length + ([1, 3, 2, 6, 6] : List Nat).length < INTMAX ∧
    (diff ([1, 5, 3, 2] : List Nat) [1, 3, 2, 6, 6] none).length =
      levenshtein none [1, 5, 3, 2] [1, 3, 2, 6, 6] :=
  ⟨by decide, diff_length_eq_levenshtein [1, 5, 3, 2] [1, 3, 2, 6, 6] none (by decide)⟩

/-- Claim C5: at every backtracking state, the step the loop takes is exactly
the one selected by the spec's fixed tie-break priority (insertion if
strictly cheaper than both alternatives, else deletion if strictly cheaper
than both, else a silent diagonal match when the diagonal equals the current
cell, else a substitution); being an equation between pure functions of the
inputs, the emitted script is deterministic. -/
theorem backtrack_follows_spec_priority {T : Type} [DecidableEq T] [Inhabited T]
    (c : Option (T → T → Bool)) (x y : List T) (i j : Nat) (h : ¬(i = 0 ∧ j = 0)) :
    backtrack c x y i j = specStep c x y i j := by
  rw [backtrack_eq c x y i j h]
  simp only [specStep, tieBreakSpec]
  by_cases h1 : insertionCost c x y i j < deletionCost c x y i j ∧
      insertionCost c x y i j < diagonalCost c x y i j
  · rw [if_pos ⟨h1.2, h1.1⟩, if_pos h1]
  · rw [if_neg (fun hc => h1 ⟨hc.2, hc.1⟩), if_neg h1]
    by_cases h2 : deletionCost c x y i j < insertionCost c x y i j ∧
        deletionCost c x y i j < diagonalCost c x y i j
    · rw [if_pos ⟨h2.2, h2.1⟩, if_pos h2]
    · rw [if_neg (fun hc => h2 ⟨hc.2, hc.1⟩), if_neg h2]
      by_cases h3 : diagonalCost c x y i j = table c x y i j
      · rw [if_pos h3, if_pos h3]
      · rw [if_neg h3, if_neg h3]

/-- Witness for C5 at the state `(1, 1)` on `[3]` against `[3]`. -/
theorem backtrack_follows_spec_priority_witness :
    ¬((1 : Nat) = 0 ∧ (1 : Nat) = 0) ∧
    backtrack (none : Option (Nat → Nat → Bool)) [3] [3] 1 1 = specStep none [3] [3] 1 1 :=
  ⟨by decide, backtrack_follows_spec_priority none [3] [3] 1 1 (by decide)⟩

/-- Claim C6: the reconstruction emits exactly the fields the spec
prescribes — an insertion step emits `Insert(i, target[j-1])` and decrements
`j`; a deletion step emits `Delete(i-1, source[i-1])` and decrements `i`; a
match emits nothing; a substitution emits `Substitute(i-1, target[j-1])` and
decrements both — and the returned list is ordered from the end of the
sequences toward the start (weakly decreasing indices). -/
theorem backtrack_emission_fields {T : Type} [DecidableEq T] [Inhabited T]
    (c : Option (T → T → Bool)) (x y : List T) (i j : Nat) (h : ¬(i = 0 ∧ j = 0)) :
    ((insertionCost c x y i j < diagonalCost c x y i j ∧
        insertionCost c x y i j < deletionCost c x y i j) →
      backtrack c x y i j =
        ⟨.INSERT, i, y.getD (j - 1) default⟩ :: backtrack c x y i (j - 1)) ∧
    (¬(insertionCost c x y i j < diagonalCost c x y i j ∧
        insertionCost c x y i j < deletionCost c x y i j) →
      (deletionCost c x y i j < diagonalCost c x y i j ∧
        deletionCost c x y i j < insertionCost c x y i j) →
      backtrack c x y i j =
        ⟨.DELETE, i - 1, x.getD (i - 1) default⟩ :: backtrack c x y (i - 1) j) ∧
    (¬(insertionCost c x y i j < diagonalCost c x y i j ∧
        insertionCost c x y i j < deletionCost c x y i j) →
      ¬(deletionCost c x y i j < diagonalCost c x y i j ∧
        deletionCost c x y i j < insertionCost c x y i j) →
      diagonalCost c x y i j = table c x y i j →
      backtrack c x y i j = backtrack c x y (i - 1) (j - 1)) ∧
    (¬(insertionCost c x y i j < diagonalCost c x y i j ∧
        insertionCost c x y i j < deletionCost c x y i j) →
      ¬(deletionCost c x y i j < diagonalCost c x y i j ∧
        deletionCost c x y i j < insertionCost c x y i j) →
      diagonalCost c x y i j ≠ table c x y i j →
      backtrack c x y i j =
        ⟨.SUBSTITUTE, i - 1, y.getD (j - 1) default⟩ :: backtrack c x y (i - 1) (j - 1)) ∧
    List.Chain' (fun a b : Diff T => b.index ≤ a.index) (diff x y c) := by
  refine ⟨?_, ?_, ?_, ?_,
    (backtrack_chain c x y (x.length + y.length) x.length y.length le_rfl).2⟩
  · intro hg
    rw [backtrack_eq c x y i j h, if_pos hg]
  · intro hg1 hg2
    rw [backtrack_eq c x y i j h, if_neg hg1, if_pos hg2]
  · intro hg1 hg2 hg3
    rw [backtrack_eq c x y i j h, if_neg hg1, if_neg hg2, if_pos hg3]
  · intro hg1 hg2 hg3
    rw [backtrack_eq c x y i j h, if_neg hg1, if_neg hg2, if_neg hg3]

/-- Witness for C6: the insertion step at state `(0, 1)` on `[]` against
`[5]` emits `Insert(0, 5)`. -/
theorem backtrack_emission_fields_witness :
    backtrack (none : Option (Nat → Nat → Bool)) [] [5] 0 1 =
      ⟨.INSERT, 0, 5⟩ :: backtrack none [] [5] 0 0 :=
  (backtrack_emission_fields none [] [5] 0 1 (by decide)).1 (by decide)

/-- Claim C7: diffing any sequence against itself (with the default
equality) yields the empty edit list. -/
theorem diff_self_nil {T : Type} [DecidableEq T] [Inhabited T] (x : List T) :
    diff x x none = [] :=
  backtrack_self_nil x x.length

/-- Claim C10: the backtracking loop terminates within `m + n` iterations
(each taken branch strictly decreases `i + j`), so `diff` is total and
returns at most `m + n` operations. -/
theorem diff_length_le {T : Type} [DecidableEq T] [Inhabited T]
    (x y : List T) (c : Option (T → T → Bool)) :
    (diff x y c).length ≤ x.length + y.length :=
  backtrack_length_le c x y (x.length + y.length) x.length y.length le_rfl

/-- Claim C4 (code bug): `setCompareFunction` stores a predicate that
`computeChanges` never passes to the diff engine (buffer.h line 263 calls
`diff(front, candidate)` with the defaulted null comparator).  With an
always-true predicate configured and snapshots `[0]`, `[1]`, the recompute
still emits a SUBSTITUTE notification, although the diff under the
configured predicate is empty. -/
theorem computeChanges_ignores_compare_fnc :
    bufferC4.compare_fnc_ = some (fun _ _ => true) ∧
    (computeChangesBody bufferC4).2 =
      [(7, .onBufferWillChange), (7, .onBufferChange .SUBSTITUTE 0 1),
        (7, .onBufferDidChange)] ∧
    diff ([0] : List Nat) [1] (some fun _ _ => true) = [] := by
  refine ⟨rfl, by decide, by decide⟩

/-- Claim C8: within a single recompute the notification sequence is one
will-change per subscriber iff the edit list is non-empty, then one
per-operation callback per subscriber for each edit in emission order, then
one did-change per subscriber iff the edit list was non-empty; an empty edit
list produces no notifications at all. -/
theorem computeChanges_notification_order {T : Type} [DecidableEq T] [Inhabited T]
    (b : Buffer T) (f0 b0 : List T) (hj : b.in_flight_ = some (f0, b0)) :
    (diff f0 (applySort b.sort_fnc b0) none = [] → (computeChangesBody b).2 = []) ∧
    (diff f0 (applySort b.sort_fnc b0) none ≠ [] →
      (computeChangesBody b).2 =
        b.subscribers_.map (fun s => (s, BufferCallback.onBufferWillChange))
          ++ (diff f0 (applySort b.sort_fnc b0) none).flatMap
            (fun d => b.subscribers_.map
              (fun s => (s, BufferCallback.onBufferChange d.type d.index d.value)))
          ++ b.subscribers_.map (fun s => (s, BufferCallback.onBufferDidChange))) := by
  constructor
  · intro hd
    simp only [computeChangesBody, hj]
    rw [hd]
    simp [notifyEvents]
  · intro hd
    have hlen : (diff f0 (applySort b.sort_fnc b0) none).length ≠ 0 := by
      simpa [List.length_eq_zero] using hd
    simp only [computeChangesBody, hj]
    simp [notifyEvents, hlen]

/-- Witness for C8: a recompute in flight on `[5]` against `[5, 6]`
notifies subscriber 3 with the full bracketed sequence. -/
theorem computeChanges_notification_order_witness :
    bufferC8w.in_flight_ = some ([5], [5, 6]) ∧
    (computeChangesBody bufferC8w).2 =
      bufferC8w.subscribers_.map (fun s => (s, BufferCallback.onBufferWillChange))
        ++ (diff [5] (applySort bufferC8w.sort_fnc [5, 6]) none).flatMap
          (fun d => bufferC8w.subscribers_.map
            (fun s => (s, BufferCallback.onBufferChange d.type d.index d.value)))
        ++ bufferC8w.subscribers_.map (fun s => (s, BufferCallback.onBufferDidChange)) :=
  ⟨rfl, (computeChanges_notification_order bufferC8w [5] [5, 6] rfl).2 (by decide)⟩

/-- Claim C9: registration is idempotent on subscriber identity — a
reference already present leaves the registry unchanged, registering twice
yields a registry in which the subscriber occurs exactly once (so each
notification round notifies it exactly once), and previously registered
subscribers keep their iteration order (the registry either stays as it was
or gets the new subscriber appended at the end). -/
theorem registerSubscriber_idempotent (l : List SubscriberId) (p : SubscriberId) :
    (p ∈ l → registerSubscriber l p = l) ∧
    registerSubscriber (registerSubscriber l p) p = registerSubscriber l p ∧
    (registerSubscriber l p = l ∨ registerSubscriber l p = l ++ [p]) ∧
    (p ∉ l →
      (registerSubscriber (registerSubscriber l p) p).count p = 1 ∧
      ∀ e : BufferCallback Nat,
        ((registerSubscriber (registerSubscriber l p) p).map fun s => (s, e)).count (p, e)
          = 1) := by
  refine ⟨?_, ?_, ?_, ?_⟩
  · intro hp
    rw [registerSubscriber, if_pos hp]
  · by_cases hp : p ∈ l
    · have hl : registerSubscriber l p = l := by rw [registerSubscriber, if_pos hp]
      rw [hl]
      exact hl
    · simp only [registerSubscriber, if_neg hp]
      rw [if_pos (by simp)]
  · by_cases hp : p ∈ l
    · left
      rw [registerSubscriber, if_pos hp]
    · right
      rw [registerSubscriber, if_neg hp]
  · intro hp
    have hzero : l.count p = 0 := List.count_eq_zero.mpr hp
    have hr : registerSubscriber (registerSubscriber l p) p = l ++ [p] := by
      simp only [registerSubscriber, if_neg hp]
      rw [if_pos (by simp)]
    constructor
    · rw [hr, List.count_append]
      simp [hzero]
    · intro e
      rw [hr, count_map_pair, List.count_append]
      simp [hzero]

/-- Witness for C9: registering subscriber 7 twice on the registry `[4]`
leaves exactly one occurrence. -/
theorem registerSubscriber_idempotent_witness :
    (registerSubscriber (registerSubscriber [4] 7) 7).count 7 = 1 :=
  ((registerSubscriber_idempotent [4] 7).2.2.2 (by decide)).1

/-- Claim C3: with a recompute in flight on snapshots `(f0, b0)` and the
recompute-requested flag clear, any non-empty burst of submissions produces
no notifications by itself, leaves the running job untouched, and when that
job finishes exactly one follow-up recompute starts, diffing the snapshot
just published against (the sort transform of) the last submitted value;
after the follow-up finishes the buffer is idle, so intermediate submitted
values are never diffed and never notified. -/
theorem coalesced_recompute {T : Type} [DecidableEq T] [Inhabited T]
    (s : Buffer T) (f0 b0 : List T) (vs : List (List T))
    (ha : s.is_asynchronous_ = true) (hc : s.is_computing_changes_ = true)
    (hf : s.should_recompute_changes_ = false) (hj : s.in_flight_ = some (f0, b0))
    (hvs : vs ≠ []) :
    (submitAll s vs).2 = [] ∧
    (computeChangesBody (submitAll s vs).1).2 =
      notifyEvents s.subscribers_ (diff f0 (applySort s.sort_fnc b0) none) ∧
    (computeChangesBody (submitAll s vs).1).1.front_buffer_ = applySort s.sort_fnc b0 ∧
    (computeChangesBody (submitAll s vs).1).1.in_flight_ =
      some (applySort s.sort_fnc b0, vs.getLastD s.back_buffer_) ∧
    (computeChangesBody (submitAll s vs).1).1.is_computing_changes_ = true ∧
    (computeChangesBody (submitAll s vs).1).1.should_recompute_changes_ = false ∧
    (computeChangesBody (computeChangesBody (submitAll s vs).1).1).2 =
      notifyEvents s.subscribers_
        (diff (applySort s.sort_fnc b0)
          (applySort s.sort_fnc (vs.getLastD s.back_buffer_)) none) ∧
    (computeChangesBody (computeChangesBody (submitAll s vs).1).1).1.front_buffer_ =
      applySort s.sort_fnc (vs.getLastD s.back_buffer_) ∧
    (computeChangesBody (computeChangesBody (submitAll s vs).1).1).1.is_computing_changes_
      = false ∧
    (computeChangesBody (computeChangesBody (submitAll s vs).1).1).1.in_flight_ = none ∧
    (computeChangesBody (computeChangesBody (submitAll s vs).1).1).1.should_recompute_changes_
      = false := by
  obtain ⟨h1, h2, h3, h4, h5, h6, h7, h8, h9⟩ := submitAll_during_flight vs s ha hc
  obtain ⟨v, vs0, rfl⟩ := List.exists_cons_of_ne_nil hvs
  have hflag : (submitAll s (v :: vs0)).1.should_recompute_changes_ = true := by
    rw [h7, hf]
    simp
  have hS8 : (submitAll s (v :: vs0)).1.in_flight_ = some (f0, b0) := h8.trans hj
  have hstep1 : computeChangesBody (submitAll s (v :: vs0)).1 =
      (⟨applySort s.sort_fnc b0, (v :: vs0).getLastD s.back_buffer_, s.subscribers_,
        (submitAll s (v :: vs0)).1.compare_fnc_, s.sort_fnc,
        (submitAll s (v :: vs0)).1.is_asynchronous_, true, false,
        some (applySort s.sort_fnc b0, (v :: vs0).getLastD s.back_buffer_)⟩,
      notifyEvents s.subscribers_ (diff f0 (applySort s.sort_fnc b0) none)) := by
    simp only [computeChangesBody, hS8, hflag, h2, h3, h4, if_true]
  refine ⟨h9, ?_, ?_, ?_, ?_, ?_, ?_, ?_, ?_, ?_, ?_⟩ <;> rw [hstep1] <;> rfl

/-- Witness for C3: two submissions `[2]`, `[3]` arriving while a recompute
on `([0], [1])` is in flight coalesce into a single follow-up recompute
against `[3]`, after which the buffer is idle. -/
theorem coalesced_recompute_witness :
    (bufferC3w.in_flight_ = some ([0], [1]) ∧ ([[2], [3]] : List (List Nat)) ≠ []) ∧
    (computeChangesBody (submitAll bufferC3w [[2], [3]]).1).1.in_flight_ =
      some (applySort bufferC3w.sort_fnc [1], [[2], [3]].getLastD bufferC3w.back_buffer_) ∧
    (computeChangesBody (computeChangesBody (submitAll bufferC3w [[2], [3]]).1).1).1.in_flight_
      = none := by
  have h := coalesced_recompute bufferC3w [0] [1] [[2], [3]] rfl rfl rfl rfl (by decide)
  exact ⟨⟨rfl, by decide⟩, h.2.2.2.1, h.2.2.2.2.2.2.2.2.2.1⟩

end buffer
